import Mathlib

/-!
Shallow embedding of `src/ljungbox.py`: sample autocorrelation (`sac`),
the Ljung-Box and Box-Pierce accumulators, and the `lbqtest` driver.

Signals are lists over an arbitrary linearly ordered field, standing for
the exact real arithmetic behind the floating-point computation; NumPy
reductions (`np.sum`, `np.mean`, `np.var`) become list sums and the
derived quotients.  The chi-squared CDF and quantile come from SciPy and
are an external dependency of the program, so `lbqtest` takes them as
explicit function arguments.
-/

namespace Ljungbox

variable {α : Type} [LinearOrderedField α]

/-- `np.mean(x)`: the arithmetic mean of the signal. -/
def mean (x : List α) : α := x.sum / (x.length : α)

/-- `np.var(x)`: the population variance (divisor `N`, i.e. `ddof = 0`). -/
def var (x : List α) : α :=
  ((x.map (fun xi => (xi - mean x) ^ 2)).sum) / (x.length : α)

/-- `sac(x, k)` of the source, scalar branch: numerator `np.sum((x-mx)*(x-mx))`
for `k == 0` and `np.sum((x[:-k]-mx)*(x[k:]-mx))` otherwise (the Python slice
`x[:-k]` is `take (length - k)` and `x[k:]` is `drop k`), divided by
`len(x) * np.var(x)`. -/
def sac (x : List α) (k : ℕ) : α :=
  (if k = 0 then
    ((x.map (fun xi => (xi - mean x) * (xi - mean x))).sum)
  else
    ((List.zipWith (fun a b => (a - mean x) * (b - mean x))
        (x.take (x.length - k)) (x.drop k)).sum))
  / ((x.length : α) * var x)

/-- `ljungbox(x, lags, alpha)`: `Q = 0; for k in range(1, lags+1): Q += sac(x,k)**2/(n-k);
Q = n*(n+2)*Q`.  Python `range(1, lags+1)` is `List.range' 1 lags`; the `alpha`
parameter is accepted (default `0.1` at the Python level) and never read. -/
def ljungbox (x : List α) (lags : ℕ) (alpha : α) : α :=
  (x.length : α) * ((x.length : α) + 2) *
    (List.range' 1 lags).foldl
      (fun Q k => Q + (sac x k) ^ 2 / ((x.length : α) - (k : α))) 0

/-- `boxpierce(x, lags, alpha)`: `Q = 0; for k in range(1, lags+1): Q += sac(x,k)**2;
Q = n*Q`.  As in the source, `alpha` is accepted and never read. -/
def boxpierce (x : List α) (lags : ℕ) (alpha : α) : α :=
  (x.length : α) *
    (List.range' 1 lags).foldl (fun Q k => Q + (sac x k) ^ 2) 0

/-- `lbqtest(x, lags, alpha, method)` of the source.  `cdf q df` stands for
`scipy.stats.chi2.cdf(q, df)` and `ppf p df` for `scipy.stats.chi2.ppf(p, df)`.
The dispatch is the source's: `findq = ljungbox if method=='lb' else boxpierce`,
and each statistic is computed as `findq(x, lag)`, which at the Python level
uses the accumulator's default `alpha=0.1` (written `1/10` here).  The result
is the tuple `(h, pV, Q, cV)` with `h = Q > cV` elementwise. -/
def lbqtest (x : List α) (lags : List ℕ) (alpha : α) (method : String)
    (cdf : α → ℕ → α) (ppf : α → ℕ → α) :
    List Bool × List α × List α × List α :=
  let findq := if method = "lb" then ljungbox else boxpierce
  let Q := lags.map (fun lag => findq x lag (1 / 10))
  let pV := List.zipWith (fun q lag => 1 - cdf q lag) Q lags
  let cV := lags.map (fun lag => ppf (1 - alpha) lag)
  let h := List.zipWith (fun q c => decide (q > c)) Q cV
  (h, pV, Q, cV)

/-! ### Helper lemmas: list folds and sums as `Finset` sums -/

lemma foldl_add_eq (f : ℕ → α) (l : List ℕ) (init : α) :
    l.foldl (fun Q k => Q + f k) init = init + (l.map f).sum := by
  induction l generalizing init with
  | nil => simp
  | cons a t ih => rw [List.foldl_cons, ih, List.map_cons, List.sum_cons, add_assoc]

lemma sum_map_range' (f : ℕ → α) (n : ℕ) :
    ((List.range' 1 n).map f).sum = ∑ k ∈ Finset.Icc 1 n, f k := by
  induction n with
  | zero => simp
  | succ m ih =>
    have h1 : (1 : ℕ) + 1 * m = m + 1 := by omega
    rw [List.range'_concat, List.map_append, List.sum_append, ih, h1,
      Finset.sum_Icc_succ_top (Nat.le_add_left 1 m)]
    simp

lemma sum_map_eq (g : α → α) (l : List α) :
    (l.map g).sum = ∑ i ∈ Finset.range l.length, g (l.getD i 0) := by
  induction l with
  | nil => simp
  | cons a t ih =>
    rw [List.map_cons, List.sum_cons, List.length_cons, Finset.sum_range_succ', ih]
    simp [add_comm]

lemma sum_zipWith_eq (g : α → α → α) (l₁ l₂ : List α) :
    (List.zipWith g l₁ l₂).sum =
      ∑ i ∈ Finset.range (min l₁.length l₂.length), g (l₁.getD i 0) (l₂.getD i 0) := by
  induction l₁ generalizing l₂ with
  | nil => simp
  | cons a t ih =>
    cases l₂ with
    | nil => simp
    | cons b t₂ =>
      rw [List.zipWith_cons_cons, List.sum_cons, ih, List.length_cons, List.length_cons,
        Nat.succ_min_succ, Finset.sum_range_succ']
      simp [add_comm]

lemma ljungbox_eq_sum (x : List α) (lags : ℕ) (alpha : α) :
    ljungbox x lags alpha =
      (x.length : α) * ((x.length : α) + 2) *
        ∑ k ∈ Finset.Icc 1 lags, (sac x k) ^ 2 / ((x.length : α) - (k : α)) := by
  have h := foldl_add_eq (fun k : ℕ => (sac x k) ^ 2 / ((x.length : α) - (k : α)))
    (List.range' 1 lags) 0
  unfold ljungbox
  rw [h, sum_map_range', zero_add]

lemma boxpierce_eq_sum (x : List α) (lags : ℕ) (alpha : α) :
    boxpierce x lags alpha =
      (x.length : α) * ∑ k ∈ Finset.Icc 1 lags, (sac x k) ^ 2 := by
  have h := foldl_add_eq (fun k : ℕ => (sac x k) ^ 2) (List.range' 1 lags) 0
  unfold boxpierce
  rw [h, sum_map_range', zero_add]

/-- The numerator/denominator structure of `sac`, with both branch numerators
written as index sums, exactly as the specification states them. -/
lemma sac_eq_formula (x : List α) (k : ℕ) :
    sac x k =
      (if k = 0 then
        ∑ i ∈ Finset.range x.length, (x.getD i 0 - mean x) ^ 2
      else
        ∑ i ∈ Finset.range (x.length - k),
          (x.getD i 0 - mean x) * (x.getD (i + k) 0 - mean x))
      / ((x.length : α) * var x) := by
  unfold sac
  congr 1
  by_cases hk : k = 0
  · rw [if_pos hk, if_pos hk,
      sum_map_eq (fun xi => (xi - mean x) * (xi - mean x)) x]
    exact Finset.sum_congr rfl (fun i _ => (pow_two _).symm)
  · rw [if_neg hk, if_neg hk,
      sum_zipWith_eq (fun a b => (a - mean x) * (b - mean x))
        (x.take (x.length - k)) (x.drop k)]
    have hmin : min (x.take (x.length - k)).length (x.drop k).length
        = x.length - k := by
      simp [List.length_take]
    rw [hmin]
    refine Finset.sum_congr rfl (fun i hi => ?_)
    rw [Finset.mem_range] at hi
    have h1 : i < (x.take (x.length - k)).length := by
      simp [List.length_take]
      omega
    have h2 : i < (x.drop k).length := by
      simp [List.length_drop]
      omega
    have h3 : i < x.length := by omega
    have h4 : i + k < x.length := by omega
    rw [List.getD_eq_getElem _ _ h1, List.getD_eq_getElem _ _ h2,
      List.getD_eq_getElem _ _ h3, List.getD_eq_getElem _ _ h4]
    congr 2
    · exact List.getElem_take _
    · rw [List.getElem_drop]
      congr 1
      omega

/-- For a nonempty signal the denominator `len(x) * np.var(x)` is the sum of
squared deviations from the mean. -/
lemma length_mul_var (x : List α) (hx : x ≠ []) :
    (x.length : α) * var x = (x.map (fun xi => (xi - mean x) ^ 2)).sum := by
  have hN : (x.length : α) ≠ 0 := by
    have := List.length_pos.mpr hx
    exact_mod_cast Nat.pos_iff_ne_zero.mp this
  rw [var, mul_comm]
  exact div_mul_cancel₀ _ hN

/-- Nonzero population variance means a nonzero sum of squared deviations. -/
lemma sq_dev_sum_ne_zero (x : List α) (hv : var x ≠ 0) :
    (x.map (fun xi => (xi - mean x) ^ 2)).sum ≠ 0 := by
  intro h
  apply hv
  rw [var, h, zero_div]

/-- Shifting every sample by a constant shifts the mean by that constant. -/
lemma mean_map_add (x : List α) (c : α) (hx : x ≠ []) :
    mean (x.map (fun xi => xi + c)) = mean x + c := by
  have hN : (x.length : α) ≠ 0 := by
    have := List.length_pos.mpr hx
    exact_mod_cast Nat.pos_iff_ne_zero.mp this
  have hsum : ∀ l : List α, (l.map (fun xi => xi + c)).sum
      = l.sum + (l.length : α) * c := by
    intro l
    induction l with
    | nil => simp
    | cons a t ih =>
      rw [List.map_cons, List.sum_cons, List.sum_cons, List.length_cons, ih]
      push_cast
      ring
  rw [mean, mean, List.length_map, hsum, add_div]
  congr 1
  rw [mul_comm]
  exact mul_div_cancel_right₀ c hN

/-- Deviations from the mean are unchanged by a constant shift. -/
lemma sub_mean_map_add (x : List α) (c : α) (hx : x ≠ []) (a : α) :
    (a + c) - mean (x.map (fun xi => xi + c)) = a - mean x := by
  rw [mean_map_add x c hx]
  ring

/-- The population variance is invariant under a constant shift. -/
lemma var_map_add (x : List α) (c : α) (hx : x ≠ []) :
    var (x.map (fun xi => xi + c)) = var x := by
  unfold var
  rw [List.length_map, List.map_map]
  have hfun : ((fun xi => (xi - mean (x.map (fun xi => xi + c))) ^ 2) ∘ fun xi => xi + c)
      = fun xi => (xi - mean x) ^ 2 := by
    funext a
    simp only [Function.comp_apply]
    rw [sub_mean_map_add x c hx a]
  rw [hfun]

/-! ### Claim theorems -/

/-- C1: for every non-empty signal `x` of length `N` with nonzero population
variance and every `lags` with `1 ≤ lags < N`, `ljungbox x lags alpha` returns
`Q = N(N+2) × Σ_{k=1}^{lags} sac(x,k)² / (N-k)`, the sum running over sub-lags
`1..lags` inclusive. -/
theorem ljungbox_formula (x : List α) (lags : ℕ) (alpha : α)
    (hx : x ≠ []) (hv : var x ≠ 0) (h1 : 1 ≤ lags) (h2 : lags < x.length) :
    ljungbox x lags alpha =
      (x.length : α) * ((x.length : α) + 2) *
        ∑ k ∈ Finset.Icc 1 lags, (sac x k) ^ 2 / ((x.length : α) - (k : α)) :=
  ljungbox_eq_sum x lags alpha

/-- Witness for C1 at the concrete signal `[1,2,3,4]` with `lags = 2`. -/
theorem ljungbox_formula_witness :
    ([1, 2, 3, 4] : List ℚ) ≠ [] ∧ var ([1, 2, 3, 4] : List ℚ) ≠ 0 ∧
    1 ≤ 2 ∧ 2 < ([1, 2, 3, 4] : List ℚ).length ∧
    ljungbox ([1, 2, 3, 4] : List ℚ) 2 (1 / 10) =
      (([1, 2, 3, 4] : List ℚ).length : ℚ) * ((([1, 2, 3, 4] : List ℚ).length : ℚ) + 2) *
        ∑ k ∈ Finset.Icc 1 2,
          (sac ([1, 2, 3, 4] : List ℚ) k) ^ 2 / ((([1, 2, 3, 4] : List ℚ).length : ℚ) - (k : ℚ)) :=
  ⟨by decide, by norm_num [var, mean], by decide, by decide,
    ljungbox_formula ([1, 2, 3, 4] : List ℚ) 2 (1 / 10)
      (by decide) (by norm_num [var, mean]) (by decide) (by decide)⟩

/-- C2: for every non-empty signal `x` with nonzero population variance and
`0 ≤ k < N`, `sac x k` is numerator / denominator with the numerator
`Σ_{i<N} (xᵢ-x̄)²` at `k = 0`, `Σ_{i<N-k} (xᵢ-x̄)(x_{i+k}-x̄)` at `k > 0`, and
the denominator `N ×` population variance (divisor `N`). -/
theorem sac_formula (x : List α) (k : ℕ)
    (hx : x ≠ []) (hv : var x ≠ 0) (hk : k < x.length) :
    sac x k =
      (if k = 0 then
        ∑ i ∈ Finset.range x.length, (x.getD i 0 - mean x) ^ 2
      else
        ∑ i ∈ Finset.range (x.length - k),
          (x.getD i 0 - mean x) * (x.getD (i + k) 0 - mean x))
      / ((x.length : α) * var x) :=
  sac_eq_formula x k

/-- Witness for C2 at the concrete signal `[1,2,3,4]` with `k = 1`. -/
theorem sac_formula_witness :
    ([1, 2, 3, 4] : List ℚ) ≠ [] ∧ var ([1, 2, 3, 4] : List ℚ) ≠ 0 ∧
    1 < ([1, 2, 3, 4] : List ℚ).length ∧
    sac ([1, 2, 3, 4] : List ℚ) 1 =
      (if 1 = 0 then
        ∑ i ∈ Finset.range ([1, 2, 3, 4] : List ℚ).length,
          (([1, 2, 3, 4] : List ℚ).getD i 0 - mean ([1, 2, 3, 4] : List ℚ)) ^ 2
      else
        ∑ i ∈ Finset.range (([1, 2, 3, 4] : List ℚ).length - 1),
          (([1, 2, 3, 4] : List ℚ).getD i 0 - mean ([1, 2, 3, 4] : List ℚ)) *
            (([1, 2, 3, 4] : List ℚ).getD (i + 1) 0 - mean ([1, 2, 3, 4] : List ℚ)))
      / ((([1, 2, 3, 4] : List ℚ).length : ℚ) * var ([1, 2, 3, 4] : List ℚ)) :=
  ⟨by decide, by norm_num [var, mean], by decide,
    sac_formula ([1, 2, 3, 4] : List ℚ) 1 (by decide) (by norm_num [var, mean]) (by decide)⟩

/-- C3: for every non-empty signal `x` of length `N` with nonzero population
variance and every `lags` with `1 ≤ lags < N`, `boxpierce x lags alpha` returns
`Q = N × Σ_{k=1}^{lags} sac(x,k)²`, with the same estimator `sac` that the
Ljung-Box accumulator uses. -/
theorem boxpierce_formula (x : List α) (lags : ℕ) (alpha : α)
    (hx : x ≠ []) (hv : var x ≠ 0) (h1 : 1 ≤ lags) (h2 : lags < x.length) :
    boxpierce x lags alpha =
      (x.length : α) * ∑ k ∈ Finset.Icc 1 lags, (sac x k) ^ 2 :=
  boxpierce_eq_sum x lags alpha

/-- Witness for C3 at the concrete signal `[1,2,3,4]` with `lags = 2`. -/
theorem boxpierce_formula_witness :
    ([1, 2, 3, 4] : List ℚ) ≠ [] ∧ var ([1, 2, 3, 4] : List ℚ) ≠ 0 ∧
    1 ≤ 2 ∧ 2 < ([1, 2, 3, 4] : List ℚ).length ∧
    boxpierce ([1, 2, 3, 4] : List ℚ) 2 (1 / 10) =
      (([1, 2, 3, 4] : List ℚ).length : ℚ) *
        ∑ k ∈ Finset.Icc 1 2, (sac ([1, 2, 3, 4] : List ℚ) k) ^ 2 :=
  ⟨by decide, by norm_num [var, mean], by decide, by decide,
    boxpierce_formula ([1, 2, 3, 4] : List ℚ) 2 (1 / 10)
      (by decide) (by norm_num [var, mean]) (by decide) (by decide)⟩

/-- C7: for every non-empty signal with nonzero population variance the
autocorrelation at lag 0 equals exactly 1: the `k = 0` numerator coincides with
the denominator `N ×` population variance. -/
theorem sac_zero_lag_eq_one (x : List α) (hx : x ≠ []) (hv : var x ≠ 0) :
    sac x 0 = 1 := by
  unfold sac
  rw [if_pos rfl]
  have hS : (x.map (fun xi => (xi - mean x) * (xi - mean x))).sum
      = (x.map (fun xi => (xi - mean x) ^ 2)).sum := by
    have hfun : (fun xi : α => (xi - mean x) * (xi - mean x))
        = fun xi => (xi - mean x) ^ 2 := by
      funext a
      exact (pow_two _).symm
    rw [hfun]
  rw [hS, length_mul_var x hx]
  exact div_self (sq_dev_sum_ne_zero x hv)

/-- Witness for C7 at the concrete signal `[1,2,3]`. -/
theorem sac_zero_lag_eq_one_witness :
    ([1, 2, 3] : List ℚ) ≠ [] ∧ var ([1, 2, 3] : List ℚ) ≠ 0 ∧
    sac ([1, 2, 3] : List ℚ) 0 = 1 :=
  ⟨by decide, by norm_num [var, mean],
    sac_zero_lag_eq_one ([1, 2, 3] : List ℚ) (by decide) (by norm_num [var, mean])⟩

/-- C9: for every signal with nonzero population variance and `1 ≤ lags < N`,
both the Ljung-Box and the Box-Pierce statistics are non-negative. -/
theorem statistics_nonneg (x : List α) (lags : ℕ) (alpha : α)
    (hv : var x ≠ 0) (h1 : 1 ≤ lags) (h2 : lags < x.length) :
    0 ≤ ljungbox x lags alpha ∧ 0 ≤ boxpierce x lags alpha := by
  constructor
  · rw [ljungbox_eq_sum]
    apply mul_nonneg
    · apply mul_nonneg (Nat.cast_nonneg _)
      positivity
    · apply Finset.sum_nonneg
      intro k hk
      rw [Finset.mem_Icc] at hk
      apply div_nonneg (sq_nonneg _)
      have hcast : (k : α) < (x.length : α) := by
        exact_mod_cast lt_of_le_of_lt hk.2 h2
      linarith
  · rw [boxpierce_eq_sum]
    exact mul_nonneg (Nat.cast_nonneg _)
      (Finset.sum_nonneg (fun k _ => sq_nonneg _))

/-- Witness for C9 at the concrete signal `[1,2,3,4]` with `lags = 2`. -/
theorem statistics_nonneg_witness :
    var ([1, 2, 3, 4] : List ℚ) ≠ 0 ∧ 1 ≤ 2 ∧ 2 < ([1, 2, 3, 4] : List ℚ).length ∧
    (0 ≤ ljungbox ([1, 2, 3, 4] : List ℚ) 2 (1 / 10) ∧
      0 ≤ boxpierce ([1, 2, 3, 4] : List ℚ) 2 (1 / 10)) :=
  ⟨by norm_num [var, mean], by decide, by decide,
    statistics_nonneg ([1, 2, 3, 4] : List ℚ) 2 (1 / 10)
      (by norm_num [var, mean]) (by decide) (by decide)⟩

/-- C10: the `alpha` parameter of both accumulators is dead — the statistics
are functions of the signal and the lag depth alone. -/
theorem alpha_has_no_effect (x : List α) (lags : ℕ) (a1 a2 : α) :
    ljungbox x lags a1 = ljungbox x lags a2 ∧
    boxpierce x lags a1 = boxpierce x lags a2 :=
  ⟨rfl, rfl⟩

/-- C5, behavior at the failing input: the driver's dispatch
`findq = ljungbox if method == 'lb' else boxpierce` raises nothing for an
unsupported selector — with the unrecognized method string `"xyz"` the driver
returns, for every input, exactly the Box-Pierce results. -/
theorem lbqtest_unknown_method_is_boxpierce (x : List α) (lags : List ℕ) (alpha : α)
    (cdf ppf : α → ℕ → α) :
    lbqtest x lags alpha "xyz" cdf ppf = lbqtest x lags alpha "bp" cdf ppf := by
  unfold lbqtest
  rw [if_neg (by decide), if_neg (by decide)]

/-- C6, behavior at the failing input: for an out-of-contract lag `k ≥ N` the
estimator raises nothing and returns the degenerate value `0`, computed from an
empty sum (`x[:-k]` and `x[k:]` are both empty). -/
theorem sac_out_of_contract_returns_zero (x : List α) (k : ℕ)
    (hx : x ≠ []) (hk : x.length ≤ k) :
    sac x k = 0 := by
  have hk0 : k ≠ 0 := by
    have := List.length_pos.mpr hx
    omega
  unfold sac
  rw [if_neg hk0]
  have htake : x.length - k = 0 := by omega
  rw [htake]
  simp

/-- Witness for the C6 behavior theorem at the concrete signal `[1,2]`, `k = 2`. -/
theorem sac_out_of_contract_returns_zero_witness :
    ([1, 2] : List ℚ) ≠ [] ∧ ([1, 2] : List ℚ).length ≤ 2 ∧
    sac ([1, 2] : List ℚ) 2 = 0 :=
  ⟨by decide, by decide,
    sac_out_of_contract_returns_zero ([1, 2] : List ℚ) 2 (by decide) (by decide)⟩

/-- C8: for every non-empty signal with nonzero population variance, every
constant `c` of the field and every lag `k < N`, the estimator applied to the
constant-shifted signal equals the estimator applied to the signal itself. -/
theorem sac_shift_invariant (x : List α) (c : α) (k : ℕ)
    (hx : x ≠ []) (hv : var x ≠ 0) (hk : k < x.length) :
    sac (x.map (fun xi => xi + c)) k = sac x k := by
  rw [sac_eq_formula, sac_eq_formula, List.length_map, var_map_add x c hx]
  congr 1
  by_cases hk0 : k = 0
  · rw [if_pos hk0, if_pos hk0]
    refine Finset.sum_congr rfl (fun i hi => ?_)
    rw [Finset.mem_range] at hi
    have h1 : i < (x.map (fun xi => xi + c)).length := by
      rw [List.length_map]
      exact hi
    rw [List.getD_eq_getElem _ _ h1, List.getD_eq_getElem _ _ hi]
    simp only [List.getElem_map]
    rw [sub_mean_map_add x c hx]
  · rw [if_neg hk0, if_neg hk0]
    refine Finset.sum_congr rfl (fun i hi => ?_)
    rw [Finset.mem_range] at hi
    have h3 : i < x.length := by omega
    have h4 : i + k < x.length := by omega
    have h1 : i < (x.map (fun xi => xi + c)).length := by
      rw [List.length_map]
      omega
    have h2 : i + k < (x.map (fun xi => xi + c)).length := by
      rw [List.length_map]
      omega
    rw [List.getD_eq_getElem _ _ h1, List.getD_eq_getElem _ _ h2,
      List.getD_eq_getElem _ _ h3, List.getD_eq_getElem _ _ h4]
    simp only [List.getElem_map]
    rw [sub_mean_map_add x c hx, sub_mean_map_add x c hx]

/-- Witness for C8 at the concrete signal `[1,2,3,4]`, shift `5`, lag `1`. -/
theorem sac_shift_invariant_witness :
    ([1, 2, 3, 4] : List ℚ) ≠ [] ∧ var ([1, 2, 3, 4] : List ℚ) ≠ 0 ∧
    1 < ([1, 2, 3, 4] : List ℚ).length ∧
    sac (([1, 2, 3, 4] : List ℚ).map (fun xi => xi + 5)) 1 = sac ([1, 2, 3, 4] : List ℚ) 1 :=
  ⟨by decide, by norm_num [var, mean], by decide,
    sac_shift_invariant ([1, 2, 3, 4] : List ℚ) 5 1
      (by decide) (by norm_num [var, mean]) (by decide)⟩

/-! ### Pointwise access helpers for the driver -/

lemma getD_map_of_lt {β δ : Type} (g : β → δ) (l : List β) (d₁ : β) (d : δ) (i : ℕ)
    (h₁ : i < l.length) :
    (l.map g).getD i d = g (l.getD i d₁) := by
  have h : i < (l.map g).length := by
    rw [List.length_map]
    exact h₁
  rw [List.getD_eq_getElem _ _ h, List.getD_eq_getElem _ _ h₁, List.getElem_map]

lemma getD_zipWith_of_lt {β γ δ : Type} (g : β → γ → δ) (l₁ : List β) (l₂ : List γ)
    (d₁ : β) (d₂ : γ) (d : δ) (i : ℕ) (h₁ : i < l₁.length) (h₂ : i < l₂.length) :
    (List.zipWith g l₁ l₂).getD i d = g (l₁.getD i d₁) (l₂.getD i d₂) := by
  have h : i < (List.zipWith g l₁ l₂).length := by
    rw [List.length_zipWith]
    omega
  rw [List.getD_eq_getElem _ _ h, List.getD_eq_getElem _ _ h₁,
    List.getD_eq_getElem _ _ h₂, List.getElem_zipWith]

/-- The four components of the driver's result tuple `(h, pV, Q, cV)`. -/
lemma lbqtest_Q (x : List α) (lags : List ℕ) (alpha : α) (method : String)
    (cdf ppf : α → ℕ → α) :
    (lbqtest x lags alpha method cdf ppf).2.2.1 =
      lags.map (fun lag => (if method = "lb" then ljungbox else boxpierce) x lag (1 / 10)) :=
  rfl

lemma lbqtest_pV (x : List α) (lags : List ℕ) (alpha : α) (method : String)
    (cdf ppf : α → ℕ → α) :
    (lbqtest x lags alpha method cdf ppf).2.1 =
      List.zipWith (fun q lag => 1 - cdf q lag)
        (lags.map (fun lag => (if method = "lb" then ljungbox else boxpierce) x lag (1 / 10)))
        lags :=
  rfl

lemma lbqtest_cV (x : List α) (lags : List ℕ) (alpha : α) (method : String)
    (cdf ppf : α → ℕ → α) :
    (lbqtest x lags alpha method cdf ppf).2.2.2 =
      lags.map (fun lag => ppf (1 - alpha) lag) :=
  rfl

lemma lbqtest_h (x : List α) (lags : List ℕ) (alpha : α) (method : String)
    (cdf ppf : α → ℕ → α) :
    (lbqtest x lags alpha method cdf ppf).1 =
      List.zipWith (fun q c => decide (q > c))
        (lags.map (fun lag => (if method = "lb" then ljungbox else boxpierce) x lag (1 / 10)))
        (lags.map (fun lag => ppf (1 - alpha) lag)) :=
  rfl

/-- C4: for every signal with nonzero population variance, positive target lags
below the signal length, and `alpha` in `(0,1)`, the driver returns four
sequences index-aligned with the lag sequence, and at every index `i`: `Q[i]`
is the selected accumulator at `(x, lags[i])`, `pV[i] = 1 - cdf Q[i] lags[i]`,
`cV[i] = ppf (1 - alpha) lags[i]`, and `h[i]` holds iff `Q[i] > cV[i]`. -/
theorem lbqtest_components (x : List α) (lags : List ℕ) (alpha : α)
    (method : String) (cdf ppf : α → ℕ → α)
    (hv : var x ≠ 0) (hl : ∀ l ∈ lags, 0 < l ∧ l < x.length)
    (ha : 0 < alpha ∧ alpha < 1) (i : ℕ) (hi : i < lags.length) :
    (lbqtest x lags alpha method cdf ppf).1.length = lags.length ∧
    (lbqtest x lags alpha method cdf ppf).2.1.length = lags.length ∧
    (lbqtest x lags alpha method cdf ppf).2.2.1.length = lags.length ∧
    (lbqtest x lags alpha method cdf ppf).2.2.2.length = lags.length ∧
    (lbqtest x lags alpha method cdf ppf).2.2.1.getD i 0 =
      (if method = "lb" then ljungbox else boxpierce) x (lags.getD i 0) (1 / 10) ∧
    (lbqtest x lags alpha method cdf ppf).2.1.getD i 0 =
      1 - cdf ((lbqtest x lags alpha method cdf ppf).2.2.1.getD i 0) (lags.getD i 0) ∧
    (lbqtest x lags alpha method cdf ppf).2.2.2.getD i 0 =
      ppf (1 - alpha) (lags.getD i 0) ∧
    ((lbqtest x lags alpha method cdf ppf).1.getD i false = true ↔
      (lbqtest x lags alpha method cdf ppf).2.2.1.getD i 0 >
        (lbqtest x lags alpha method cdf ppf).2.2.2.getD i 0) := by
  have hQlen : (lags.map
      (fun lag => (if method = "lb" then ljungbox else boxpierce) x lag (1 / 10))).length
      = lags.length := by
    rw [List.length_map]
  have hcVlen : (lags.map (fun lag => ppf (1 - alpha) lag)).length = lags.length := by
    rw [List.length_map]
  refine ⟨?_, ?_, ?_, ?_, ?_, ?_, ?_, ?_⟩
  · rw [lbqtest_h, List.length_zipWith, hQlen, hcVlen, min_self]
  · rw [lbqtest_pV, List.length_zipWith, hQlen, min_self]
  · rw [lbqtest_Q, List.length_map]
  · rw [lbqtest_cV, List.length_map]
  · rw [lbqtest_Q, getD_map_of_lt _ lags 0 0 i hi]
  · rw [lbqtest_pV, lbqtest_Q,
      getD_zipWith_of_lt _ _ lags 0 0 0 i (by rw [hQlen]; exact hi) hi]
  · rw [lbqtest_cV, getD_map_of_lt _ lags 0 0 i hi]
  · rw [lbqtest_h, lbqtest_Q, lbqtest_cV,
      getD_zipWith_of_lt _ _ _ 0 0 false i
        (by rw [hQlen]; exact hi) (by rw [hcVlen]; exact hi)]
    exact decide_eq_true_iff

/-- Witness for C4 at the concrete signal `[1,2,3,4]`, lags `[1,2]`,
`alpha = 1/2`, method `"lb"`, with constant-zero stand-ins for the chi-squared
CDF and quantile, at index `0`. -/
theorem lbqtest_components_witness :
    (lbqtest ([1, 2, 3, 4] : List ℚ) [1, 2] (1 / 2) "lb"
        (fun _ _ => 0) (fun _ _ => 0)).1.length = ([1, 2] : List ℕ).length ∧
    (lbqtest ([1, 2, 3, 4] : List ℚ) [1, 2] (1 / 2) "lb"
        (fun _ _ => 0) (fun _ _ => 0)).2.1.length = ([1, 2] : List ℕ).length ∧
    (lbqtest ([1, 2, 3, 4] : List ℚ) [1, 2] (1 / 2) "lb"
        (fun _ _ => 0) (fun _ _ => 0)).2.2.1.length = ([1, 2] : List ℕ).length ∧
    (lbqtest ([1, 2, 3, 4] : List ℚ) [1, 2] (1 / 2) "lb"
        (fun _ _ => 0) (fun _ _ => 0)).2.2.2.length = ([1, 2] : List ℕ).length ∧
    (lbqtest ([1, 2, 3, 4] : List ℚ) [1, 2] (1 / 2) "lb"
        (fun _ _ => 0) (fun _ _ => 0)).2.2.1.getD 0 0 =
      (if "lb" = "lb" then ljungbox else boxpierce) ([1, 2, 3, 4] : List ℚ)
        (([1, 2] : List ℕ).getD 0 0) (1 / 10) ∧
    (lbqtest ([1, 2, 3, 4] : List ℚ) [1, 2] (1 / 2) "lb"
        (fun _ _ => 0) (fun _ _ => 0)).2.1.getD 0 0 =
      1 - (fun _ _ => (0 : ℚ))
        ((lbqtest ([1, 2, 3, 4] : List ℚ) [1, 2] (1 / 2) "lb"
          (fun _ _ => 0) (fun _ _ => 0)).2.2.1.getD 0 0) (([1, 2] : List ℕ).getD 0 0) ∧
    (lbqtest ([1, 2, 3, 4] : List ℚ) [1, 2] (1 / 2) "lb"
        (fun _ _ => 0) (fun _ _ => 0)).2.2.2.getD 0 0 =
      (fun _ _ => (0 : ℚ)) (1 - (1 / 2 : ℚ)) (([1, 2] : List ℕ).getD 0 0) ∧
    ((lbqtest ([1, 2, 3, 4] : List ℚ) [1, 2] (1 / 2) "lb"
        (fun _ _ => 0) (fun _ _ => 0)).1.getD 0 false = true ↔
      (lbqtest ([1, 2, 3, 4] : List ℚ) [1, 2] (1 / 2) "lb"
          (fun _ _ => 0) (fun _ _ => 0)).2.2.1.getD 0 0 >
        (lbqtest ([1, 2, 3, 4] : List ℚ) [1, 2] (1 / 2) "lb"
          (fun _ _ => 0) (fun _ _ => 0)).2.2.2.getD 0 0) :=
  lbqtest_components ([1, 2, 3, 4] : List ℚ) [1, 2] (1 / 2) "lb"
    (fun _ _ => 0) (fun _ _ => 0)
    (by norm_num [var, mean]) (by decide) (by norm_num) 0 (by decide)

end Ljungbox
